import Mathlib

/-!
Verification development for the llm-eval-monitoring repository.

Shallow embedding conventions:
- Python floats are modelled as rationals (the claims under study concern the
  arithmetic formulas, not binary rounding).
- Python `re` matching is modelled by a fuel-indexed backtracking matcher over a
  small regex AST covering exactly the constructs used by the embedded patterns
  (character classes, literals, word boundaries, capturing groups, greedy
  bounded/unbounded repetition). Greedy backtracking priority and the
  `re.findall` group rule (zero groups: full match; two or more groups: a tuple
  of group captures, with the empty string for a non-participating group) follow
  the Python semantics. Fuel is an implementation device only; every use in this
  file supplies ample fuel for the concrete inputs evaluated.
- Python sets are modelled as `Finset`, dicts in insertion order as association
  lists, and JSON-like values by the `Py` inductive type.
-/

/-! ## Regex engine (model of Python `re` for the embedded patterns) -/

/-- Regex AST: empty, single-character class, word boundary, capturing group,
concatenation, and greedy repetition with a lower bound and optional upper
bound. -/
inductive RE where
  | eps
  | cls (p : Char → Bool)
  | wordB
  | grp (idx : Nat) (r : RE)
  | cat (a b : RE)
  | rep (lo : Nat) (hi : Option Nat) (r : RE)

/-- Group captures: association list from group index to the last captured
substring, newest first. -/
abbrev Caps := List (Nat × String)

def setCap (caps : Caps) (idx : Nat) (v : String) : Caps :=
  (idx, v) :: caps

def getCap (caps : Caps) (idx : Nat) : String :=
  match caps.find? (fun p => p.1 == idx) with
  | some p => p.2
  | none => ""

def sliceStr (s : List Char) (i j : Nat) : String :=
  String.mk ((s.drop i).take (j - i))

def isWordChar (c : Char) : Bool :=
  (97 ≤ c.toNat && c.toNat ≤ 122) || (65 ≤ c.toNat && c.toNat ≤ 90) ||
  (48 ≤ c.toNat && c.toNat ≤ 57) || c == '_'

def wordAt (s : List Char) (i : Nat) : Bool :=
  match s.get? i with
  | some c => isWordChar c
  | none => false

/-- Python word boundary: the word-ness of the characters on either side of
position i differs (positions outside the string count as non-word). -/
def wordBoundary (s : List Char) (i : Nat) : Bool :=
  (match i with
   | 0 => false
   | j + 1 => wordAt s j) != wordAt s i

/-- Backtracking matcher in continuation-passing style. Returns the first
success in Python backtracking priority order (greedy repetitions try the
longest expansion first). The continuation receives the end position and the
captures of the candidate parse; returning `none` from it triggers
backtracking. A repetition whose body matched the empty string is cut off to
keep the matcher total; every repetition body in the embedded patterns consumes
at least one character, so this cut never alters their semantics. -/
def reMat (s : List Char) :
    Nat → RE → Nat → Caps → (Nat → Caps → Option (Nat × Caps)) → Option (Nat × Caps)
  | 0, _, _, _, _ => none
  | fuel + 1, r, i, caps, k =>
    match r with
    | .eps => k i caps
    | .cls p =>
      match s.get? i with
      | some c => if p c then k (i + 1) caps else none
      | none => none
    | .wordB => if wordBoundary s i then k i caps else none
    | .grp idx a =>
      reMat s fuel a i caps (fun j c2 => k j (setCap c2 idx (sliceStr s i j)))
    | .cat a b =>
      reMat s fuel a i caps (fun j c2 => reMat s fuel b j c2 k)
    | .rep lo hi a =>
      match lo with
      | l + 1 =>
        reMat s fuel a i caps (fun j c2 =>
          reMat s fuel (.rep l (hi.map (fun h => h - 1)) a) j c2 k)
      | 0 =>
        match hi with
        | some 0 => k i caps
        | _ =>
          match reMat s fuel a i caps (fun j c2 =>
              if j = i then none
              else reMat s fuel (.rep 0 (hi.map (fun h => h - 1)) a) j c2 k) with
          | some res => some res
          | none => k i caps

/-- Ample fuel for matching the embedded patterns against `s`. -/
def fuelFor (s : List Char) : Nat :=
  (s.length + 16) * 80

/-- Scan for successive non-overlapping matches from position `i`, as
`re.findall` / `re.finditer` do: try each position left to right; after a
match, resume at its end (advancing by one if it was empty). -/
def reScan (r : RE) (s : List Char) : Nat → Nat → List (String × Caps)
  | 0, _ => []
  | fuel + 1, i =>
    if i > s.length then []
    else
      match reMat s (fuelFor s) r i [] (fun j c => some (j, c)) with
      | some (j, caps) =>
        (sliceStr s i j, caps) :: reScan r s fuel (if i < j then j else i + 1)
      | none =>
        if i = s.length then [] else reScan r s fuel (i + 1)

/-- A `re.findall` element: a plain string (pattern without capturing groups)
or a tuple of group captures (pattern with two or more groups). -/
inductive MV where
  | s (v : String)
  | tup (g : List String)
deriving DecidableEq, Repr

/-- Python `re.findall`: with no capturing groups the full match is returned,
with one group the group capture, with several groups the tuple of group
captures (empty string for a group that did not participate). `groups` lists
the group indices of the pattern in order. -/
def re_findall (r : RE) (groups : List Nat) (text : String) : List MV :=
  (reScan r text.data (text.data.length + 2) 0).map (fun m =>
    match groups with
    | [] => .s m.1
    | [g] => .s (getCap m.2 g)
    | gs => .tup (gs.map (getCap m.2)))

/-- Python `re.search` returning the first match, as the matched substring and
its captures. -/
def re_search (r : RE) (text : String) : Option (String × Caps) :=
  (reScan r text.data (text.data.length + 2) 0).head?

/-! ## Character classes and pattern constructors -/

def isDigitA (c : Char) : Bool := 48 ≤ c.toNat && c.toNat ≤ 57

def isAlphaA (c : Char) : Bool :=
  (97 ≤ c.toNat && c.toNat ≤ 122) || (65 ≤ c.toNat && c.toNat ≤ 90)

def isAlnumA (c : Char) : Bool := isAlphaA c || isDigitA c

def isAlnumDash (c : Char) : Bool := isAlnumA c || c == '-'

def isHexA (c : Char) : Bool :=
  isDigitA c || (97 ≤ c.toNat && c.toNat ≤ 102) || (65 ≤ c.toNat && c.toNat ≤ 70)

def isEmailLocal (c : Char) : Bool :=
  isAlnumA c || c == '.' || c == '_' || c == '%' || c == '+' || c == '-'

def isEmailDomain (c : Char) : Bool := isAlnumA c || c == '.' || c == '-'

/-- The class written `[A-Z|a-z]` in the email pattern: it literally contains
the pipe character. -/
def isAlphaPipe (c : Char) : Bool := isAlphaA c || c == '|'

/-- Literal character under `re.IGNORECASE`, which every pattern in the
extractor is compiled with. -/
def chr (c : Char) : RE := .cls (fun d => d.toLower == c.toLower)

def lits (cs : String) : RE := (cs.data.map chr).foldr .cat .eps

/-! ## The six hardcoded IOC patterns of IOCExtractorEvaluator.PATTERNS -/

def ipv4RE : RE :=
  .cat .wordB (.cat
    (.rep 3 (some 3) (.cat (.rep 1 (some 3) (.cls isDigitA)) (chr '.')))
    (.cat (.rep 1 (some 3) (.cls isDigitA)) .wordB))

def domainRE : RE :=
  .cat .wordB (.cat (.cls isAlnumA) (.cat
    (.rep 0 (some 1)
      (.grp 1 (.cat (.rep 0 (some 61) (.cls isAlnumDash)) (.cls isAlnumA))))
    (.cat
      (.rep 1 none (.grp 2 (.cat (chr '.') (.rep 2 none (.cls isAlphaA)))))
      .wordB)))

def md5RE : RE := .cat .wordB (.cat (.rep 32 (some 32) (.cls isHexA)) .wordB)

def sha256RE : RE := .cat .wordB (.cat (.rep 64 (some 64) (.cls isHexA)) .wordB)

def cveRE : RE :=
  .cat .wordB (.cat (lits "CVE-") (.cat
    (.rep 4 (some 4) (.cls isDigitA))
    (.cat (chr '-') (.cat (.rep 4 (some 7) (.cls isDigitA)) .wordB))))

def emailRE : RE :=
  .cat .wordB (.cat (.rep 1 none (.cls isEmailLocal)) (.cat (chr '@')
    (.cat (.rep 1 none (.cls isEmailDomain))
      (.cat (chr '.') (.cat (.rep 2 none (.cls isAlphaPipe)) .wordB)))))

/-- The PATTERNS mapping in source order, each with the list of capturing
group indices the pattern contains. -/
def PATTERNS : List (String × RE × List Nat) :=
  [("ipv4", ipv4RE, []),
   ("domain", domainRE, [1, 2]),
   ("md5", md5RE, []),
   ("sha256", sha256RE, []),
   ("cve", cveRE, []),
   ("email", emailRE, [])]

/-! ## IOCExtractorEvaluator -/

/-- IOCExtractorEvaluator.extract_iocs: apply every pattern with
`re.findall`, keep the set of results per type, omitting types with no
matches; dict insertion order follows PATTERNS order. -/
def extract_iocs (text : String) : List (String × Finset MV) :=
  PATTERNS.foldr (fun pat acc =>
    let ms := (re_findall pat.2.1 pat.2.2 text).toFinset
    if ms = ∅ then acc else (pat.1, ms) :: acc) []

/-! ## JSON-like Python values and the evaluator result type -/

/-- JSON-like Python value for metadata payloads. -/
inductive Py where
  | pstr (v : String)
  | pnum (v : ℚ)
  | pint (v : Int)
  | pbool (v : Bool)
  | plist (vs : List Py)
  | pdict (kvs : List (String × Py))
  | pnone

/-- EvaluationResult from src.evaluation.base: metric_type, value, metadata
(insertion-ordered), tri-state passed (none models Python None). -/
structure EvaluationResult where
  metric_type : String
  value : ℚ
  metadata : List (String × Py)
  passed : Option Bool

/-- Python string truthiness for an optional string argument: truthy iff
present and non-empty. -/
def truthyStr : Option String → Bool
  | none => false
  | some s => !(s == "")

/-! ## IOCExtractorEvaluator metrics and evaluate -/

/-- Flatten an extracted-IOC mapping into one plain set, as the loops at the
top of IOCExtractorEvaluator._calculate_metrics do. -/
def flattenIocs (d : List (String × Finset MV)) : Finset MV :=
  d.foldl (fun acc p => acc ∪ p.2) ∅

/-- IOCExtractorEvaluator._calculate_metrics: returns (precision, recall, f1).
If the flattened extracted set is empty, all three are 0. -/
def calculate_metrics (extracted gt : List (String × Finset MV)) : ℚ × ℚ × ℚ :=
  let ef := flattenIocs extracted
  let gf := flattenIocs gt
  if ef = ∅ then (0, 0, 0)
  else
    let tp : ℚ := ((ef ∩ gf).card : ℚ)
    let precisionV : ℚ := tp / (ef.card : ℚ)
    let recallV : ℚ := if gf = ∅ then 0 else tp / (gf.card : ℚ)
    let f1 : ℚ := if precisionV + recallV > 0
      then 2 * (precisionV * recallV) / (precisionV + recallV) else 0
    (precisionV, recallV, f1)

/-- Total number of extracted IOCs across all types. -/
def totalExtracted (extracted : List (String × Finset MV)) : Nat :=
  (extracted.map (fun p => p.2.card)).sum

/-- The ground-truth branch of IOCExtractorEvaluator.evaluate. -/
def iocF1Result (extracted : List (String × Finset MV)) (g : String) :
    EvaluationResult :=
  let gt := extract_iocs g
  let m := calculate_metrics extracted gt
  { metric_type := "ioc_extraction_f1"
    value := m.2.2
    metadata := [("precision", .pnum m.1), ("recall", .pnum m.2.1),
                 ("extracted_count", .pint (totalExtracted extracted)),
                 ("ioc_types", .plist (extracted.map (fun p => .pstr p.1)))]
    passed := some (decide (m.2.2 ≥ 8/10)) }

/-- The no-ground-truth branch of IOCExtractorEvaluator.evaluate. -/
def iocCountResult (extracted : List (String × Finset MV)) : EvaluationResult :=
  { metric_type := "ioc_extraction_count"
    value := (totalExtracted extracted : ℚ)
    metadata := [("ioc_breakdown",
                   .pdict (extracted.map (fun p => (p.1, Py.pint p.2.card)))),
                 ("ioc_types", .plist (extracted.map (fun p => .pstr p.1)))]
    passed := none }

/-- IOCExtractorEvaluator.evaluate: with a truthy (present, non-empty)
ground_truth compute F1 against it, otherwise report the extraction count. -/
def ioc_evaluate (response : String) (ground_truth : Option String) :
    EvaluationResult :=
  let extracted := extract_iocs response
  match ground_truth with
  | some g => if g = "" then iocCountResult extracted else iocF1Result extracted g
  | none => iocCountResult extracted

/-! ## LatencyEvaluator statistics -/

/-- Python round (round half to even) on an exact rational. -/
def pyRound (x : ℚ) : ℤ :=
  let f := x.floor
  let frac := x - (f : ℚ)
  if frac < 1/2 then f
  else if 1/2 < frac then f + 1
  else if f % 2 = 0 then f else f + 1

/-- LatencyEvaluator._percentile: nearest-rank index round((p/100)·(N−1)),
clamped into [0, N−1]; empty input yields 0. -/
def percentile (sorted_vals : List ℚ) (p : ℚ) : ℚ :=
  if sorted_vals = [] then 0
  else
    let k := pyRound (p / 100 * ((sorted_vals.length : ℚ) - 1))
    let k2 := max 0 (min k ((sorted_vals.length : ℤ) - 1))
    sorted_vals.getD k2.toNat 0

structure LatencyStats where
  n : ℕ
  mean_ms : ℚ
  p50_ms : ℚ
  p95_ms : ℚ
  p99_ms : ℚ
  min_ms : ℚ
  max_ms : ℚ
deriving DecidableEq, Repr

/-- LatencyEvaluator.calculate_stats: empty input yields all-zero stats,
otherwise one ascending sort of the samples feeds every statistic. -/
def calculate_stats (latencies_ms : List ℚ) : LatencyStats :=
  if latencies_ms = [] then ⟨0, 0, 0, 0, 0, 0, 0⟩
  else
    let vals := latencies_ms.insertionSort (· ≤ ·)
    { n := vals.length
      mean_ms := vals.sum / (vals.length : ℚ)
      p50_ms := percentile vals 50
      p95_ms := percentile vals 95
      p99_ms := percentile vals 99
      min_ms := vals.getD 0 0
      max_ms := vals.getD (vals.length - 1) 0 }

/-! ## FactualityEvaluator score extraction and evaluate -/

/-- The group of the number-finding pattern in FactualityEvaluator,
one or more digits, an optional dot, then any digits, written
in the source as a single capturing group. -/
def scoreRE : RE :=
  .grp 1 (.cat (.rep 1 none (.cls isDigitA))
    (.cat (.rep 0 (some 1) (.cls (fun c => c == '.')))
      (.rep 0 none (.cls isDigitA))))

def digitsToNat (cs : List Char) : Nat :=
  cs.foldl (fun n c => n * 10 + (c.toNat - 48)) 0

/-- Split at the first dot: integer digits and fractional digits. -/
def splitFrac : List Char → List Char × List Char
  | [] => ([], [])
  | c :: cs =>
    if c == '.' then ([], cs)
    else
      let r := splitFrac cs
      (c :: r.1, r.2)

/-- Exact value of Python float() on a string of the shape the number pattern
matches: one or more digits, an optional dot, then any digits. -/
def parseDecimal (s : String) : ℚ :=
  let p := splitFrac s.data
  (digitsToNat p.1 : ℚ) + (digitsToNat p.2 : ℚ) / ((10 : ℚ) ^ p.2.length)

/-- The first decimal number occurring in the text, if any. -/
def firstNumber (text : String) : Option ℚ :=
  (re_search scoreRE text).map (fun m => parseDecimal (getCap m.2 1))

/-- FactualityEvaluator._extract_score: find the first decimal number; divide
by 10 when it exceeds 1.0; accept only results within [0, 1]. -/
def extract_score (text : String) : Option ℚ :=
  match firstNumber text with
  | none => none
  | some score0 =>
    let score := if score0 > 1 then score0 / 10 else score0
    if 0 ≤ score ∧ score ≤ 1 then some score else none

structure FactualityConfig where
  use_llm_judge : Bool := true
  threshold : ℚ := 8/10
  fallback_to_similarity : Bool := true
  max_retries : Nat := 2

def factualityNoGtResult : EvaluationResult :=
  { metric_type := "factuality", value := 0
    metadata := [("error", .pstr "no_ground_truth")], passed := none }

/-- FactualityEvaluator.evaluate. The LLM judge call is an unimplemented
integration stub in the source that always yields no score, so after the retry
loop the judge score is always absent and the similarity branch runs; the
sentence-embedding similarity model is an external dependency, supplied here as
the oracle `sim` (and an all-zero score when fallback is disabled, matching the
unloaded-model path in the source). A falsy (absent or empty) ground_truth
short-circuits to the no-ground-truth result. -/
def factuality_evaluate (cfg : FactualityConfig) (sim : String → String → ℚ)
    (response : String) (ground_truth : Option String) : EvaluationResult :=
  if truthyStr ground_truth = false then factualityNoGtResult
  else
    let g := ground_truth.getD ""
    let similarity_score : ℚ := if cfg.fallback_to_similarity then sim response g else 0
    let factuality_score : ℚ := similarity_score
    { metric_type := "factuality"
      value := factuality_score
      metadata := [("method", .pstr "semantic_similarity"),
                   ("threshold", .pnum cfg.threshold),
                   ("ground_truth_length", .pint g.length),
                   ("response_length", .pint response.length),
                   ("semantic_similarity", .pnum similarity_score)]
      passed := some (decide (factuality_score ≥ cfg.threshold)) }

/-! ## ExactMatchEvaluator -/

structure ExactMatchConfig where
  case_sensitive : Bool := false
  normalize_whitespace : Bool := true

/-- The whitespace set of Python str.split with no argument, over ASCII. -/
def pyIsSpace (c : Char) : Bool :=
  c == ' ' || c == '\t' || c == '\n' || c.toNat = 13 || c.toNat = 11 || c.toNat = 12

/-- Python str.split with no argument: split on runs of whitespace, dropping
leading and trailing whitespace. -/
def pySplitWsAux : List Char → List Char → List String
  | [], acc => if acc = [] then [] else [String.mk acc.reverse]
  | c :: cs, acc =>
    if pyIsSpace c then
      if acc = [] then pySplitWsAux cs []
      else String.mk acc.reverse :: pySplitWsAux cs []
    else pySplitWsAux cs (c :: acc)

def pySplitWs (s : String) : List String := pySplitWsAux s.data []

def pyLower (s : String) : String := String.mk (s.data.map Char.toLower)

/-- ExactMatchEvaluator._normalize: collapse whitespace runs to single spaces
when enabled, lower-case when case-insensitive. -/
def normalizeText (cfg : ExactMatchConfig) (text : String) : String :=
  let t := if cfg.normalize_whitespace
    then String.intercalate " " (pySplitWs text) else text
  if cfg.case_sensitive then t else pyLower t

def exactMatchNoGtResult : EvaluationResult :=
  { metric_type := "exact_match", value := 0
    metadata := [("error", .pstr "no_ground_truth")], passed := none }

/-- ExactMatchEvaluator.evaluate. -/
def exact_match_evaluate (cfg : ExactMatchConfig)
    (response : String) (ground_truth : Option String) : EvaluationResult :=
  if truthyStr ground_truth = false then exactMatchNoGtResult
  else
    let rn := normalizeText cfg response
    let gn := normalizeText cfg (ground_truth.getD "")
    let is_match := rn == gn
    { metric_type := "exact_match"
      value := if is_match then 1 else 0
      metadata := [("case_sensitive", .pbool cfg.case_sensitive),
                   ("normalize_whitespace", .pbool cfg.normalize_whitespace)]
      passed := some is_match }

/-! ## POST /evaluate/ orchestration (src.api.routes.evaluate) -/

/-- Database session events, in the order the handler issues them. -/
inductive DbEvent where
  | flushEvaluation
  | flushMetric (metric_type : String) (value : ℚ) (metadata : List (String × Py))
  | commit

def DbEvent.isCommit : DbEvent → Bool
  | .commit => true
  | _ => false

structure MetricResponse where
  metric_type : String
  value : ℚ
  passed : Option Bool
  metadata : List (String × Py)

structure ApiResponse where
  status : Nat
  metrics : List MetricResponse
  overall_passed : Bool

/-- The evaluator loop of evaluate_response: each evaluator outcome is either
a result or a raised exception; a raised exception is logged and skipped,
a result is stored as a metric (flush), appended to the response list, and
folded into all_passed (only an explicit passed = false flips it). -/
def evalLoop : List (Except String EvaluationResult) → Bool →
    List DbEvent × List MetricResponse × Bool
  | [], b => ([], [], b)
  | o :: rest, b =>
    match o with
    | .error _ => evalLoop rest b
    | .ok r =>
      let acc := evalLoop rest (if r.passed = some false then false else b)
      (.flushMetric r.metric_type r.value r.metadata :: acc.1,
       ⟨r.metric_type, r.value, r.passed, r.metadata⟩ :: acc.2.1,
       acc.2.2)

/-- evaluate_response: create the Evaluation row (flush), run the evaluator
loop, commit once afterwards, and respond 200 with the collected metric
entries and the overall_passed rollup. -/
def evaluate_response (outcomes : List (Except String EvaluationResult)) :
    ApiResponse × List DbEvent :=
  let acc := evalLoop outcomes true
  (⟨200, acc.2.1, acc.2.2⟩, DbEvent.flushEvaluation :: acc.1 ++ [DbEvent.commit])

/-- The results of the evaluators that did not raise, in order. -/
def successes (outcomes : List (Except String EvaluationResult)) :
    List EvaluationResult :=
  outcomes.filterMap (fun o => match o with | .ok r => some r | .error _ => none)

/-! ## Storage: the Metric model and EvaluationRepository.add_metric -/

/-- An in-memory Metric ORM object. The mapped columns of the Metric model are
id, evaluation_id, metric_type, value, meta_data (the JSON column the source
renamed from metadata) and timestamp; any other attribute set on the instance
is a plain, unmapped Python attribute that is never persisted. -/
structure MetricObj where
  orm_id : Option Py := none
  evaluation_id : Option Py := none
  metric_type : Option Py := none
  value : Option Py := none
  meta_data : Option Py := none
  timestamp : Option Py := none
  instance_attrs : List (String × Py) := []

/-- The attribute names existing on the Metric class: its mapped columns, the
evaluation relationship, and the table-metadata attribute named metadata that
every SQLAlchemy declarative class inherits from its Base. -/
def metricClassAttrs : List String :=
  ["id", "evaluation_id", "metric_type", "value", "meta_data", "timestamp",
   "evaluation", "metadata"]

def metricSetAttr (m : MetricObj) (k : String) (v : Py) : MetricObj :=
  if k = "id" then { m with orm_id := some v }
  else if k = "evaluation_id" then { m with evaluation_id := some v }
  else if k = "metric_type" then { m with metric_type := some v }
  else if k = "value" then { m with value := some v }
  else if k = "meta_data" then { m with meta_data := some v }
  else if k = "timestamp" then { m with timestamp := some v }
  else { m with instance_attrs := m.instance_attrs ++ [(k, v)] }

/-- The SQLAlchemy declarative constructor: each keyword argument must name an
attribute existing on the class (else TypeError) and is assigned with setattr;
assignment to a name that is not a mapped column merely creates an unmapped
instance attribute. -/
def metricInit (kwargs : List (String × Py)) : Except String MetricObj :=
  kwargs.foldlM
    (fun m kv =>
      if metricClassAttrs.contains kv.1 then Except.ok (metricSetAttr m kv.1 kv.2)
      else Except.error "invalid keyword argument")
    {}

/-- EvaluationRepository.add_metric: builds
Metric(evaluation_id=..., metric_type=..., value=..., metadata=... or empty)
and flushes it. -/
def add_metric (eval_id : Nat) (metric_type : String) (value : ℚ)
    (metadata : Option (List (String × Py))) : Except String MetricObj :=
  metricInit
    [("evaluation_id", .pint eval_id), ("metric_type", .pstr metric_type),
     ("value", .pnum value), ("metadata", .pdict (metadata.getD []))]

/-! ## ModelRouter.generate retry loop -/

/-- The body of ModelRouter.generate: the Python loop
for attempt in range(1, max_retries + 2) keeps the last exception and raises
it after the final failing attempt. The provider is indexed by attempt number;
the returned counter is the number of attempts performed. The outer Option
models the assert on last_err (none is unreachable when at least one attempt
runs). -/
def generateLoop {E R : Type} (provider : Nat → Except E R) :
    Nat → Nat → Option E → Nat → Option (Except E R) × Nat
  | _, 0, lastErr, made => (lastErr.map Except.error, made)
  | attempt, remaining + 1, _, made =>
    match provider attempt with
    | .ok v => (some (.ok v), made + 1)
    | .error e => generateLoop provider (attempt + 1) remaining (some e) (made + 1)

/-- ModelRouter.generate: up to max_retries + 1 total attempts; on total
failure the last exception propagates (no fallback provider). -/
def router_generate {E R : Type} (provider : Nat → Except E R)
    (max_retries : Nat) : Option (Except E R) × Nat :=
  generateLoop provider 1 (max_retries + 1) none 0

/-! ## Configuration loader cache (src.common.config.get_config) -/

/-- Process state for the memoized loader: the lru_cache table keyed by the
argument value, a counter supplying the identity of each freshly constructed
Config object, and the current value of the APP_ENV override variable. -/
structure CacheState where
  entries : List (Option String × Nat)
  nextId : Nat
  appEnv : Option String

def cacheLookup (entries : List (Option String × Nat)) (key : Option String) :
    Option Nat :=
  match entries.find? (fun p => p.1 = key) with
  | some p => some p.2
  | none => none

/-- The environment name the loader body resolves: the explicit argument when
given, else the APP_ENV override, else dev. -/
def resolveEnvName (appEnv : Option String) (arg : Option String) : String :=
  match arg with
  | some e => e
  | none => appEnv.getD "dev"

/-- get_config under lru_cache: the cache key is the argument value itself;
on a miss the body resolves the environment name, constructs a fresh Config
object (a fresh identity), and the cache stores it under the argument. -/
def get_config (st : CacheState) (arg : Option String) : Nat × CacheState :=
  match cacheLookup st.entries arg with
  | some oid => (oid, st)
  | none =>
    (st.nextId,
     { st with entries := (arg, st.nextId) :: st.entries, nextId := st.nextId + 1 })

/-! ## Spec-side formulas (stated from the specification wording, to be
compared against the embedded code) -/

/-- Spec formula: precision = size of the intersection over size of the
extracted set (0 when extracted is empty, by the division-by-zero
convention of ℚ matching the forced 0.0 of the spec). -/
def iocSpecPrecision (E G : Finset MV) : ℚ := ((E ∩ G).card : ℚ) / (E.card : ℚ)

/-- Spec formula: recall = size of the intersection over size of the
ground-truth set (0 when ground truth is empty). -/
def iocSpecRecall (E G : Finset MV) : ℚ := ((E ∩ G).card : ℚ) / (G.card : ℚ)

/-- Spec formula: F1 = 2·precision·recall / (precision + recall) when that sum
is nonzero, else 0. -/
def iocSpecF1 (E G : Finset MV) : ℚ :=
  if iocSpecPrecision E G + iocSpecRecall E G ≠ 0 then
    2 * (iocSpecPrecision E G * iocSpecRecall E G) /
      (iocSpecPrecision E G + iocSpecRecall E G)
  else 0

/-- Spec formula (latency): the nearest-rank percentile of a sorted ascending
list: index = round((p/100)·(N−1)) clamped into [0, N−1], value at that
index. -/
def nearestRankValue (vals : List ℚ) (p : ℚ) : ℚ :=
  vals.getD
    (max 0 (min (pyRound (p / 100 * ((vals.length : ℚ) - 1)))
      ((vals.length : ℤ) - 1))).toNat 0

/-! ## Helper lemmas -/

theorem iocSpecPrecision_nonneg (E G : Finset MV) : 0 ≤ iocSpecPrecision E G :=
  div_nonneg (Nat.cast_nonneg _) (Nat.cast_nonneg _)

theorem iocSpecRecall_nonneg (E G : Finset MV) : 0 ≤ iocSpecRecall E G :=
  div_nonneg (Nat.cast_nonneg _) (Nat.cast_nonneg _)

/-- The code computation of _calculate_metrics agrees with the uniform spec
formulas on every pair of extraction mappings. -/
theorem calculate_metrics_eq_spec (ext gt : List (String × Finset MV)) :
    calculate_metrics ext gt =
      (iocSpecPrecision (flattenIocs ext) (flattenIocs gt),
       iocSpecRecall (flattenIocs ext) (flattenIocs gt),
       iocSpecF1 (flattenIocs ext) (flattenIocs gt)) := by
  unfold calculate_metrics
  set E := flattenIocs ext with hE
  set G := flattenIocs gt with hG
  by_cases hef : E = ∅
  · rw [if_pos hef]
    have hcap : (E ∩ G) = ∅ := by rw [hef]; exact Finset.empty_inter G
    have hp : iocSpecPrecision E G = 0 := by
      rw [iocSpecPrecision, hef]
      simp
    have hr : iocSpecRecall E G = 0 := by
      rw [iocSpecRecall, hcap]
      simp
    have hf : iocSpecF1 E G = 0 := by
      rw [iocSpecF1, hp, hr]
      simp
    rw [hp, hr, hf]
  · rw [if_neg hef]
    have hprec : ((E ∩ G).card : ℚ) / (E.card : ℚ) = iocSpecPrecision E G := rfl
    have hrec :
        (if G = ∅ then (0 : ℚ) else ((E ∩ G).card : ℚ) / (G.card : ℚ)) =
          iocSpecRecall E G := by
      by_cases hgf : G = ∅
      · rw [if_pos hgf, iocSpecRecall, hgf]
        simp
      · rw [if_neg hgf, iocSpecRecall]
    have hcond :
        (iocSpecPrecision E G + iocSpecRecall E G > 0) ↔
          (iocSpecPrecision E G + iocSpecRecall E G ≠ 0) := by
      constructor
      · intro hgt
        exact ne_of_gt hgt
      · intro hne
        exact lt_of_le_of_ne
          (add_nonneg (iocSpecPrecision_nonneg E G) (iocSpecRecall_nonneg E G))
          (Ne.symm hne)
    simp only [hprec, hrec]
    rw [if_congr hcond rfl rfl, iocSpecF1]

/-! ## Claim theorems -/

/-- C1 (code-bug demonstration): for the text evil.com, extract_iocs returns
the domain entry as the capture-group tuple (vil, .com) produced by
re.findall on a pattern with two capturing groups, and the matched substring
evil.com itself appears nowhere in the result, contradicting the claimed
set-of-matching-substrings semantics. -/
theorem extract_iocs_domain_group_tuples :
    extract_iocs "evil.com" = [("domain", {MV.tup ["vil", ".com"]})] ∧
    MV.s "evil.com" ∉ flattenIocs (extract_iocs "evil.com") := by
  constructor
  · decide
  · decide

/-- C2: with a non-empty ground_truth string, IOCExtractorEvaluator.evaluate
returns metric_type ioc_extraction_f1 whose value is the F1 of the spec
formulas over the two flattened sets (precision = intersection over
extracted, recall = intersection over ground truth, all three forced to 0
when the extracted set is empty — the 0-division convention of ℚ makes the
uniform formulas agree with that forcing), and passed = (F1 ≥ 0.8). -/
theorem ioc_f1_metric (response g : String) (h : g ≠ "") :
    calculate_metrics (extract_iocs response) (extract_iocs g) =
      (iocSpecPrecision (flattenIocs (extract_iocs response)) (flattenIocs (extract_iocs g)),
       iocSpecRecall (flattenIocs (extract_iocs response)) (flattenIocs (extract_iocs g)),
       iocSpecF1 (flattenIocs (extract_iocs response)) (flattenIocs (extract_iocs g))) ∧
    (flattenIocs (extract_iocs response) = ∅ →
      calculate_metrics (extract_iocs response) (extract_iocs g) = (0, 0, 0)) ∧
    (ioc_evaluate response (some g)).metric_type = "ioc_extraction_f1" ∧
    (ioc_evaluate response (some g)).value =
      iocSpecF1 (flattenIocs (extract_iocs response)) (flattenIocs (extract_iocs g)) ∧
    (ioc_evaluate response (some g)).passed =
      some (decide (iocSpecF1 (flattenIocs (extract_iocs response))
        (flattenIocs (extract_iocs g)) ≥ 8/10)) := by
  have hm := calculate_metrics_eq_spec (extract_iocs response) (extract_iocs g)
  have heval : ioc_evaluate response (some g) = iocF1Result (extract_iocs response) g := by
    show (if g = "" then iocCountResult (extract_iocs response)
      else iocF1Result (extract_iocs response) g) = iocF1Result (extract_iocs response) g
    rw [if_neg h]
  refine ⟨hm, ?_, ?_, ?_, ?_⟩
  · intro hE
    rw [hm]
    have hcap : (flattenIocs (extract_iocs response) ∩ flattenIocs (extract_iocs g)) = ∅ := by
      rw [hE]
      exact Finset.empty_inter _
    have hp : iocSpecPrecision (flattenIocs (extract_iocs response))
        (flattenIocs (extract_iocs g)) = 0 := by
      rw [iocSpecPrecision, hE]
      simp
    have hr : iocSpecRecall (flattenIocs (extract_iocs response))
        (flattenIocs (extract_iocs g)) = 0 := by
      rw [iocSpecRecall, hcap]
      simp
    have hf : iocSpecF1 (flattenIocs (extract_iocs response))
        (flattenIocs (extract_iocs g)) = 0 := by
      rw [iocSpecF1, hp, hr]
      simp
    rw [hp, hr, hf]
  · rw [heval]
    rfl
  · rw [heval]
    show (calculate_metrics (extract_iocs response) (extract_iocs g)).2.2 = _
    rw [hm]
  · rw [heval]
    show some (decide ((calculate_metrics (extract_iocs response) (extract_iocs g)).2.2 ≥ 8/10)) = _
    rw [hm]

/-- Witness for C2 at the concrete pair response = ground_truth = a.bc. -/
theorem ioc_f1_metric_witness :
    ("a.bc" : String) ≠ "" ∧
    (ioc_evaluate "a.bc" (some "a.bc")).metric_type = "ioc_extraction_f1" :=
  ⟨by decide, (ioc_f1_metric "a.bc" "a.bc" (by decide)).2.2.1⟩


/-- Characterization of the evaluator loop: the flush events and response
entries are exactly the successful results in order, and the final all_passed
flag is the initial flag conjoined with no-success-reporting-false. -/
theorem evalLoop_eq (outcomes : List (Except String EvaluationResult)) (b : Bool) :
    evalLoop outcomes b =
      ((successes outcomes).map (fun r => .flushMetric r.metric_type r.value r.metadata),
       (successes outcomes).map (fun r => ⟨r.metric_type, r.value, r.passed, r.metadata⟩),
       b && (successes outcomes).all (fun r => !(r.passed = some false))) := by
  induction outcomes generalizing b with
  | nil => simp [evalLoop, successes]
  | cons o rest ih =>
    cases o with
    | error e =>
      show evalLoop rest b = _
      rw [ih]
      rfl
    | ok r =>
      by_cases hp : r.passed = some false
      · simp [evalLoop, ih, successes, List.filterMap_cons, hp]
      · simp [evalLoop, ih, successes, List.filterMap_cons, hp]

/-- C3: overall_passed of the POST /evaluate/ response is true exactly when no
successful evaluator result reports passed explicitly false; indeterminate
(None) and true results never flip it. -/
theorem overall_passed_rollup (outcomes : List (Except String EvaluationResult)) :
    (evaluate_response outcomes).1.overall_passed = true ↔
      ∀ r : EvaluationResult, Except.ok r ∈ outcomes → r.passed ≠ some false := by
  show (evalLoop outcomes true).2.2 = true ↔ _
  rw [evalLoop_eq]
  simp only [Bool.true_and, List.all_eq_true]
  constructor
  · intro hall r hmem
    have hrs : r ∈ successes outcomes := by
      unfold successes
      exact List.mem_filterMap.mpr ⟨Except.ok r, hmem, rfl⟩
    have := hall r hrs
    simpa using this
  · intro hok r hmem
    unfold successes at hmem
    obtain ⟨o, ho, hor⟩ := List.mem_filterMap.mp hmem
    cases o with
    | error e => exact absurd hor (by simp)
    | ok r0 =>
      have : r0 = r := by simpa using hor
      subst this
      simpa using hok r0 ho

/-- C4: one evaluator raising does not disturb the rest: the handler responds
HTTP 200 whose metric entries are exactly the successful results in order, the
session trace is the Evaluation flush, one Metric flush per successful
evaluator, and a single commit as the final event; in particular with three
evaluators of which the second raises, exactly two metric entries come back. -/
theorem evaluator_isolation (outcomes : List (Except String EvaluationResult))
    (r1 r2 : EvaluationResult) (msg : String) :
    (evaluate_response outcomes).1.status = 200 ∧
    (evaluate_response outcomes).1.metrics =
      (successes outcomes).map (fun r => ⟨r.metric_type, r.value, r.passed, r.metadata⟩) ∧
    (evaluate_response outcomes).2 =
      DbEvent.flushEvaluation ::
        (successes outcomes).map (fun r => .flushMetric r.metric_type r.value r.metadata)
        ++ [DbEvent.commit] ∧
    ((evaluate_response outcomes).2.countP (fun e => e.isCommit) = 1 ∧
      (evaluate_response outcomes).2.getLast? = some DbEvent.commit) ∧
    (evaluate_response [Except.ok r1, Except.error msg, Except.ok r2]).1.metrics.length = 2 := by
  have hev : (evaluate_response outcomes).2 =
      DbEvent.flushEvaluation :: (evalLoop outcomes true).1 ++ [DbEvent.commit] := rfl
  refine ⟨rfl, ?_, ?_, ⟨?_, ?_⟩, ?_⟩
  · show (evalLoop outcomes true).2.1 = _
    rw [evalLoop_eq]
  · rw [hev, evalLoop_eq]
  · rw [hev, evalLoop_eq]
    have hzero : ((successes outcomes).map
        (fun r => DbEvent.flushMetric r.metric_type r.value r.metadata)).countP
          (fun e => e.isCommit) = 0 := by
      rw [List.countP_eq_zero]
      intro e he
      obtain ⟨r, _, hr⟩ := List.mem_map.mp he
      rw [← hr]
      simp [DbEvent.isCommit]
    simp [List.countP_cons, List.countP_append, hzero, DbEvent.isCommit]
  · rw [hev, List.getLast?_concat]
  · show ((evalLoop [Except.ok r1, Except.error msg, Except.ok r2] true).2.1).length = 2
    rw [evalLoop_eq]
    rfl

/-- Evaluating pyRound once the floor of its argument is known. -/
theorem pyRound_eq_of_bounds (x : ℚ) (f : ℤ) (hle : (f : ℚ) ≤ x) (hlt : x < f + 1) :
    pyRound x =
      if x - f < 1/2 then f
      else if 1/2 < x - f then f + 1
      else if f % 2 = 0 then f else f + 1 := by
  have hf : x.floor = f := Int.floor_eq_iff.mpr ⟨hle, hlt⟩
  simp only [pyRound, hf]

theorem sortedFive :
    List.insertionSort (· ≤ ·) ([100, 200, 300, 400, 500] : List ℚ) =
      [100, 200, 300, 400, 500] := by
  simp [List.insertionSort, List.orderedInsert]
  norm_num

theorem percentile_five_50 :
    percentile ([100, 200, 300, 400, 500] : List ℚ) 50 = 300 := by
  have h : percentile ([100, 200, 300, 400, 500] : List ℚ) 50 =
      nearestRankValue ([100, 200, 300, 400, 500] : List ℚ) 50 := by
    simp only [percentile, nearestRankValue]
    rw [if_neg (by simp)]
  rw [h]
  unfold nearestRankValue
  have harg : (50 : ℚ) / 100 * ((([100, 200, 300, 400, 500] : List ℚ).length : ℚ) - 1) = 2 := by
    norm_num
  rw [harg, pyRound_eq_of_bounds 2 2 (by norm_num) (by norm_num)]
  norm_num
  rfl

theorem percentile_five_95 :
    percentile ([100, 200, 300, 400, 500] : List ℚ) 95 = 500 := by
  have h : percentile ([100, 200, 300, 400, 500] : List ℚ) 95 =
      nearestRankValue ([100, 200, 300, 400, 500] : List ℚ) 95 := by
    simp only [percentile, nearestRankValue]
    rw [if_neg (by simp)]
  rw [h]
  unfold nearestRankValue
  have harg : (95 : ℚ) / 100 * ((([100, 200, 300, 400, 500] : List ℚ).length : ℚ) - 1) = 19/5 := by
    norm_num
  rw [harg, pyRound_eq_of_bounds (19/5) 3 (by norm_num) (by norm_num)]
  norm_num
  rfl

theorem percentile_five_99 :
    percentile ([100, 200, 300, 400, 500] : List ℚ) 99 = 500 := by
  have h : percentile ([100, 200, 300, 400, 500] : List ℚ) 99 =
      nearestRankValue ([100, 200, 300, 400, 500] : List ℚ) 99 := by
    simp only [percentile, nearestRankValue]
    rw [if_neg (by simp)]
  rw [h]
  unfold nearestRankValue
  have harg : (99 : ℚ) / 100 * ((([100, 200, 300, 400, 500] : List ℚ).length : ℚ) - 1) = 99/25 := by
    norm_num
  rw [harg, pyRound_eq_of_bounds (99/25) 3 (by norm_num) (by norm_num)]
  norm_num
  rfl

/-- C5: calculate_stats sorts the samples ascending, computes every percentile
by the nearest-rank rule over the sorted list, the mean as sum over count,
min and max as first and last of the sorted list; for [100, 200, 300, 400,
500] this gives p50 = 300, p95 = 500, mean = 300, min = 100, max = 500, n = 5;
and the empty list yields n = 0 with every other statistic 0. -/
theorem latency_stats_nearest_rank :
    (∀ samples : List ℚ, samples ≠ [] →
      ∃ vals : List ℚ, vals.Perm samples ∧ vals.Sorted (· ≤ ·) ∧
        calculate_stats samples =
          { n := vals.length
            mean_ms := vals.sum / (vals.length : ℚ)
            p50_ms := nearestRankValue vals 50
            p95_ms := nearestRankValue vals 95
            p99_ms := nearestRankValue vals 99
            min_ms := vals.getD 0 0
            max_ms := vals.getD (vals.length - 1) 0 }) ∧
    calculate_stats [100, 200, 300, 400, 500] = ⟨5, 300, 300, 500, 500, 100, 500⟩ ∧
    calculate_stats [] = ⟨0, 0, 0, 0, 0, 0, 0⟩ := by
  refine ⟨?_, ?_, by rfl⟩
  · intro samples hne
    refine ⟨samples.insertionSort (· ≤ ·), List.perm_insertionSort _ _,
      List.sorted_insertionSort _ _, ?_⟩
    have hvne : samples.insertionSort (· ≤ ·) ≠ [] := by
      intro hnil
      apply hne
      have hperm := List.perm_insertionSort (· ≤ ·) samples
      rw [hnil] at hperm
      exact hperm.symm.eq_nil
    unfold calculate_stats
    rw [if_neg hne]
    simp only [percentile, nearestRankValue, if_neg hvne]
  · unfold calculate_stats
    rw [if_neg (by simp), sortedFive]
    simp only [percentile_five_50, percentile_five_95, percentile_five_99]
    norm_num [List.sum_cons, List.getD]

/-- Witness for C5 instantiating its universally quantified conjunct at the
five-sample list. -/
theorem latency_stats_nearest_rank_witness :
    ([100, 200, 300, 400, 500] : List ℚ) ≠ [] ∧
    ∃ vals : List ℚ, vals.Perm ([100, 200, 300, 400, 500] : List ℚ) ∧
      vals.Sorted (· ≤ ·) ∧
      calculate_stats [100, 200, 300, 400, 500] =
        { n := vals.length
          mean_ms := vals.sum / (vals.length : ℚ)
          p50_ms := nearestRankValue vals 50
          p95_ms := nearestRankValue vals 95
          p99_ms := nearestRankValue vals 99
          min_ms := vals.getD 0 0
          max_ms := vals.getD (vals.length - 1) 0 } :=
  ⟨by simp, latency_stats_nearest_rank.1 [100, 200, 300, 400, 500] (by simp)⟩

theorem firstNumber_seven : firstNumber "7" = some 7 := by
  have hs : re_search scoreRE "7" = some ("7", [(1, "7")]) := by decide
  have h1 : splitFrac "7".data = (['7'], []) := by decide
  have h2 : digitsToNat ['7'] = 7 := by decide
  have hp : parseDecimal "7" = 7 := by
    simp only [parseDecimal, h1, h2]
    norm_num [digitsToNat]
  have hg : getCap [(1, "7")] 1 = "7" := by decide
  simp [firstNumber, hs, hg, hp]

theorem firstNumber_one_point_five : firstNumber "1.5" = some (3/2) := by
  have hs : re_search scoreRE "1.5" = some ("1.5", [(1, "1.5")]) := by decide
  have h1 : splitFrac "1.5".data = (['1'], ['5']) := by decide
  have h2 : digitsToNat ['1'] = 1 := by decide
  have h3 : digitsToNat ['5'] = 5 := by decide
  have hp : parseDecimal "1.5" = 3/2 := by
    simp only [parseDecimal, h1, h2, h3]
    norm_num
  have hg : getCap [(1, "1.5")] 1 = "1.5" := by decide
  simp [firstNumber, hs, hg, hp]

theorem firstNumber_fifteen : firstNumber "15" = some 15 := by
  have hs : re_search scoreRE "15" = some ("15", [(1, "15")]) := by decide
  have h1 : splitFrac "15".data = (['1', '5'], []) := by decide
  have h2 : digitsToNat ['1', '5'] = 15 := by decide
  have hp : parseDecimal "15" = 15 := by
    simp only [parseDecimal, h1, h2]
    norm_num [digitsToNat]
  have hg : getCap [(1, "15")] 1 = "15" := by decide
  simp [firstNumber, hs, hg, hp]

/-- Case analysis of _extract_score once the first number is known: a number
above 1 is accepted as its tenth exactly when it does not exceed 10; a number
at most 1 is accepted as is exactly when nonnegative. -/
theorem extract_score_cases (t : String) (d : ℚ) (h : firstNumber t = some d) :
    extract_score t =
      if 1 < d then (if d ≤ 10 then some (d / 10) else none)
      else (if 0 ≤ d then some d else none) := by
  unfold extract_score
  rw [h]
  show (let score := if d > 1 then d / 10 else d;
    if 0 ≤ score ∧ score ≤ 1 then some score else none) = _
  by_cases hd : 1 < d
  · rw [if_pos hd, if_pos hd]
    show (if 0 ≤ d / 10 ∧ d / 10 ≤ 1 then some (d / 10) else none) = _
    have h0 : 0 ≤ d / 10 :=
      le_of_lt (div_pos (lt_trans zero_lt_one hd) (by norm_num))
    have hiff : (0 ≤ d / 10 ∧ d / 10 ≤ 1) ↔ d ≤ 10 := by
      rw [div_le_one (by norm_num : (0 : ℚ) < 10)]
      exact ⟨fun hc => hc.2, fun hc => ⟨h0, hc⟩⟩
    rw [if_congr hiff rfl rfl]
  · rw [if_neg hd, if_neg hd]
    show (if 0 ≤ d ∧ d ≤ 1 then some d else none) = _
    have hle : d ≤ 1 := le_of_not_lt hd
    have hiff : (0 ≤ d ∧ d ≤ 1) ↔ 0 ≤ d :=
      ⟨fun hc => hc.1, fun hc => ⟨hc, hle⟩⟩
    rw [if_congr hiff rfl rfl]

theorem extract_score_of_no_number (t : String) (h : firstNumber t = none) :
    extract_score t = none := by
  unfold extract_score
  rw [h]

/-- C6 counterexample: the judge reply 1.5 is scaled to 0.15 and accepted, not
discarded as the claim states. -/
theorem extract_score_accepts_one_point_five :
    extract_score "1.5" = some (3/20) ∧ extract_score "1.5" ≠ none := by
  have h := extract_score_cases "1.5" (3/2) firstNumber_one_point_five
  have he : extract_score "1.5" = some (3/20) := by
    rw [h]
    norm_num
  refine ⟨he, ?_⟩
  rw [he]
  exact Option.some_ne_none _

/-- C6 amended: _extract_score finds the first decimal number, divides it by
10 when it exceeds 1, and accepts exactly the results within [0, 1]; a reply
containing 7 yields 0.7, the reply 1.5 is scaled to 0.15 and accepted, and a
first number must exceed 10 (such as 15) for the scaled result to leave [0, 1]
and be discarded; with no number in the reply there is no score, and any
returned score lies within [0, 1]. -/
theorem extract_score_amended :
    extract_score "7" = some (7/10) ∧
    extract_score "1.5" = some (3/20) ∧
    extract_score "15" = none ∧
    (∀ t : String, ∀ d : ℚ, firstNumber t = some d →
      extract_score t =
        if 1 < d then (if d ≤ 10 then some (d / 10) else none)
        else (if 0 ≤ d then some d else none)) ∧
    (∀ t : String, firstNumber t = none → extract_score t = none) ∧
    (∀ t : String, ∀ q : ℚ, extract_score t = some q → 0 ≤ q ∧ q ≤ 1) := by
  refine ⟨?_, ?_, ?_, extract_score_cases, extract_score_of_no_number, ?_⟩
  · rw [extract_score_cases "7" 7 firstNumber_seven]
    norm_num
  · rw [extract_score_cases "1.5" (3/2) firstNumber_one_point_five]
    norm_num
  · rw [extract_score_cases "15" 15 firstNumber_fifteen]
    norm_num
  · intro t q h
    cases hfn : firstNumber t with
    | none =>
      rw [extract_score_of_no_number t hfn] at h
      exact absurd h (by simp)
    | some d =>
      rw [extract_score_cases t d hfn] at h
      by_cases hd : 1 < d
      · rw [if_pos hd] at h
        by_cases h10 : d ≤ 10
        · rw [if_pos h10] at h
          have hq : q = d / 10 := by
            exact Option.some.inj h.symm
          subst hq
          constructor
          · exact le_of_lt (div_pos (lt_trans zero_lt_one hd) (by norm_num))
          · rw [div_le_one (by norm_num : (0 : ℚ) < 10)]
            exact h10
        · rw [if_neg h10] at h
          exact absurd h (by simp)
      · rw [if_neg hd] at h
        by_cases h0 : 0 ≤ d
        · rw [if_pos h0] at h
          have hq : q = d := by
            exact Option.some.inj h.symm
          subst hq
          exact ⟨h0, le_of_not_lt hd⟩
        · rw [if_neg h0] at h
          exact absurd h (by simp)

/-- Witness for C6 amended, applying the case-analysis conjunct and the
soundness conjunct at the reply 7. -/
theorem extract_score_amended_witness :
    firstNumber "7" = some 7 ∧
    extract_score "7" =
      (if (1 : ℚ) < 7 then (if (7 : ℚ) ≤ 10 then some (7 / 10) else none)
       else (if (0 : ℚ) ≤ 7 then some 7 else none)) ∧
    (0 : ℚ) ≤ 7/10 ∧ (7 : ℚ)/10 ≤ 1 :=
  ⟨firstNumber_seven,
   extract_score_amended.2.2.2.1 "7" 7 firstNumber_seven,
   extract_score_amended.2.2.2.2.2 "7" (7/10) extract_score_amended.1⟩

/-- C7 (code-bug demonstration): add_metric hands the constructor the keyword
metadata, but the mapped JSON column of the Metric model is meta_data (the
source renamed it), so the supplied mapping lands in an unmapped instance
attribute and the persisted meta_data column stays empty. -/
theorem add_metric_metadata_not_persisted :
    ∃ m : MetricObj,
      add_metric 1 "latency" 1 (some [("threshold", Py.pnum 2)]) = Except.ok m ∧
      m.meta_data = none ∧
      m.instance_attrs = [("metadata", .pdict [("threshold", Py.pnum 2)])] ∧
      m.evaluation_id = some (.pint 1) ∧
      m.metric_type = some (.pstr "latency") ∧
      m.value = some (.pnum 1) :=
  ⟨_, rfl, rfl, rfl, rfl, rfl, rfl⟩

theorem generateLoop_all_fail {E R : Type} (provider : Nat → Except E R)
    (err : Nat → E) (h : ∀ i, provider i = .error (err i)) :
    ∀ (rem attempt made : Nat) (le : Option E),
      generateLoop provider attempt (rem + 1) le made =
        (some (.error (err (attempt + rem))), made + (rem + 1)) := by
  intro rem
  induction rem with
  | zero =>
    intro attempt made le
    show (match provider attempt with
      | Except.ok v => (some (Except.ok v), made + 1)
      | Except.error e => generateLoop provider (attempt + 1) 0 (some e) (made + 1)) = _
    rw [h attempt]
    rfl
  | succ n ih =>
    intro attempt made le
    show (match provider attempt with
      | Except.ok v => (some (Except.ok v), made + 1)
      | Except.error e => generateLoop provider (attempt + 1) (n + 1) (some e) (made + 1)) = _
    rw [h attempt]
    show generateLoop provider (attempt + 1) (n + 1) (some (err attempt)) (made + 1) = _
    rw [ih (attempt + 1) (made + 1) (some (err attempt))]
    have e1 : attempt + 1 + n = attempt + (n + 1) := by omega
    have e2 : made + 1 + (n + 1) = made + (n + 1 + 1) := by omega
    rw [e1, e2]

/-- C8: against a provider that fails on every attempt, generate performs
exactly max_retries + 1 attempts and propagates the exception of the last
attempt; no fallback result is produced. -/
theorem provider_retry_exhaustion {E R : Type} (provider : Nat → Except E R)
    (err : Nat → E) (max_retries : Nat) (h : ∀ i, provider i = .error (err i)) :
    router_generate provider max_retries =
      (some (.error (err (max_retries + 1))), max_retries + 1) := by
  unfold router_generate
  rw [generateLoop_all_fail provider err h max_retries 1 0 none]
  rw [Nat.add_comm 1 max_retries, Nat.zero_add]

/-- Witness for C8: a provider over E = Nat failing at every attempt with its
attempt index, configured with max_retries = 2, performs exactly 3 attempts
and propagates the failure of attempt 3. -/
theorem provider_retry_exhaustion_witness :
    (∀ i : Nat, (fun j => (Except.error j : Except Nat Unit)) i = .error i) ∧
    router_generate (fun j => (Except.error j : Except Nat Unit)) 2 =
      (some (.error 3), 3) :=
  ⟨fun _ => rfl,
   provider_retry_exhaustion (fun j => (Except.error j : Except Nat Unit))
     (fun i => i) 2 (fun _ => rfl)⟩

theorem cacheLookup_insert (entries : List (Option String × Nat))
    (key : Option String) (oid : Nat) :
    cacheLookup ((key, oid) :: entries) key = some oid := by
  unfold cacheLookup
  rw [List.find?_cons_of_pos _ (by simp)]

/-- C9 counterexample: from a fresh process state with no override variable
set, a load with no argument and then a load with the explicit argument dev
resolve to the same environment name dev, yet the second load constructs a
distinct Config object instead of returning the cached one: the lru_cache key
is the argument value, not the resolved environment name. -/
theorem get_config_not_keyed_by_resolved_name :
    resolveEnvName (⟨[], 0, none⟩ : CacheState).appEnv none =
      resolveEnvName (get_config ⟨[], 0, none⟩ none).2.appEnv (some "dev") ∧
    (get_config ⟨[], 0, none⟩ none).1 ≠
      (get_config (get_config ⟨[], 0, none⟩ none).2 (some "dev")).1 := by
  constructor
  · rfl
  · decide

/-- C9 amended: get_config is memoized per argument value for the process
lifetime: a repeated load with the same argument returns the identical cached
object and leaves the cache unchanged; a load with a different argument
constructs a distinct object even when it resolves to the same environment
name; and once the no-argument load is cached, changing the override variable
does not change what a no-argument load returns. -/
theorem get_config_memoized_per_argument :
    (∀ (st : CacheState) (arg : Option String),
      get_config (get_config st arg).2 arg = get_config st arg) ∧
    ((get_config ⟨[], 0, none⟩ none).1 ≠
      (get_config (get_config ⟨[], 0, none⟩ none).2 (some "dev")).1 ∧
     resolveEnvName (⟨[], 0, none⟩ : CacheState).appEnv none = "dev" ∧
     resolveEnvName (get_config ⟨[], 0, none⟩ none).2.appEnv (some "dev") = "dev") ∧
    (∀ e : Option String,
      (get_config
        { (get_config ⟨[], 0, none⟩ none).2 with appEnv := e } none).1 =
        (get_config ⟨[], 0, none⟩ none).1) := by
  refine ⟨?_, ⟨by decide, rfl, rfl⟩, fun e => rfl⟩
  intro st arg
  cases hl : cacheLookup st.entries arg with
  | some oid =>
    have h1 : get_config st arg = (oid, st) := by
      unfold get_config
      rw [hl]
    rw [h1]
    exact h1
  | none =>
    have h1 : get_config st arg =
        (st.nextId,
         { st with entries := (arg, st.nextId) :: st.entries,
                   nextId := st.nextId + 1 }) := by
      unfold get_config
      rw [hl]
    rw [h1]
    show get_config
      { st with entries := (arg, st.nextId) :: st.entries,
                nextId := st.nextId + 1 } arg = _
    unfold get_config
    have hent : ({ st with entries := (arg, st.nextId) :: st.entries,
                           nextId := st.nextId + 1 } : CacheState).entries =
        (arg, st.nextId) :: st.entries := rfl
    rw [hent, cacheLookup_insert]

/-- C10: supplying ground_truth as the empty string is treated exactly like
omitting it: the factuality and exact-match evaluators return their
no-ground-truth result (value 0, indeterminate passed, no_ground_truth error
marker), and the IOC evaluator takes the extraction-count branch. -/
theorem empty_ground_truth_like_missing (cfgF : FactualityConfig)
    (cfgE : ExactMatchConfig) (sim : String → String → ℚ) (response : String) :
    factuality_evaluate cfgF sim response (some "") =
      factuality_evaluate cfgF sim response none ∧
    factuality_evaluate cfgF sim response (some "") = factualityNoGtResult ∧
    exact_match_evaluate cfgE response (some "") =
      exact_match_evaluate cfgE response none ∧
    exact_match_evaluate cfgE response (some "") = exactMatchNoGtResult ∧
    ioc_evaluate response (some "") = ioc_evaluate response none ∧
    (ioc_evaluate response (some "")).metric_type = "ioc_extraction_count" :=
  ⟨rfl, rfl, rfl, rfl, rfl, rfl⟩
